import Mathlib

/-!
Verification development for the inline link engine of markdown-it.rs.

The functions `parse_link_destination`, `parse_link_title`,
`parse_link_label`, `parse_link`, `rule` (src/generics/inline/full_link.rs),
`validate_link` (src/lib.rs) and `get_link` / the autolink scanner
(src/plugins/cmark/inline/autolink.rs) are translated from the Rust source.
Strings are modelled as `List Char`; positions are byte offsets, advanced by
`Char.utf8Size` exactly where the Rust code adds `len_utf8()`.

Parts of the repository that are not available in source form (the inline
tokenizer driver, `unescape_all`, `mdurl::encode`, the reference map of the
block phase) are modelled from the specification; each such definition is
marked with a doc comment starting with `Modelled from the spec:`.
-/

/-- Chars of `cs` whose byte range lies inside `[start, stop)`; mirrors the
Rust slice `&str[start..stop]` (byte offsets, multi-byte chars kept whole). -/
def byteSlice : List Char → Nat → Nat → List Char
  | [], _, _ => []
  | c :: rest, start, stop =>
    if start = 0 then
      (if c.utf8Size ≤ stop then c :: byteSlice rest 0 (stop - c.utf8Size) else [])
    else if c.utf8Size ≤ start then byteSlice rest (start - c.utf8Size) (stop - c.utf8Size)
    else []

/-- Total number of UTF-8 bytes of a char list (`str::len`). -/
def utf8Len : List Char → Nat
  | [] => 0
  | c :: rest => c.utf8Size + utf8Len rest

/-- `str[pos..max].chars().next()` of the Rust code. -/
def headSlice (src : List Char) (pos max : Nat) : Option Char :=
  (byteSlice src pos max).head?

/-- ASCII punctuation, as used by CommonMark backslash escapes. -/
def isAsciiPunct (c : Char) : Bool :=
  decide (33 ≤ c.toNat ∧ c.toNat ≤ 47) || decide (58 ≤ c.toNat ∧ c.toNat ≤ 64) ||
  decide (91 ≤ c.toNat ∧ c.toNat ≤ 96) || decide (123 ≤ c.toNat ∧ c.toNat ≤ 126)

/-- Modelled from the spec: `common::utils::unescape_all` is not under `src/`.
The spec says it "decodes numeric and named entities and literal backslash
escapes"; the backslash-escape decoding is modelled here (an escaped ASCII
punctuation char is replaced by the char itself).  Entity decoding is omitted:
no claim in this development depends on the internals of this helper, which
only ever appears applied to both sides of an equation. -/
def unescape_all : List Char → List Char
  | [] => []
  | '\\' :: c :: rest =>
    if isAsciiPunct c then c :: unescape_all rest else '\\' :: unescape_all (c :: rest)
  | c :: rest => c :: unescape_all rest

/-- Result record of the fragment helpers (full_link.rs, `ParseLinkFragmentResult`);
the Rust field `str` keeps its name, `pos` is the end position, `lines` the
number of linebreaks inside. -/
structure ParseLinkFragmentResult where
  pos : Nat
  lines : Nat
  str : List Char
deriving DecidableEq

/-- Bare-URL scan loop of `parse_link_destination` (full_link.rs lines
224-252).  Arguments: remaining chars, current byte position, parenthesis
nesting level.  Returns the end position on success; the `level != 0` check
after the loop is inlined into each `break` site. -/
def dest_bare : List Char → Nat → Nat → Option Nat
  | [], pos, level => if level ≠ 0 then none else some pos
  | c :: rest, pos, level =>
    if c.toNat ≤ 32 ∨ c.toNat = 127 then (if level ≠ 0 then none else some pos)
    else if c = '\\' then
      match rest with
      | [] => if level ≠ 0 then none else some pos
      | x :: rest' =>
        if x = ' ' then (if level ≠ 0 then none else some pos)
        else dest_bare rest' (pos + 1 + x.utf8Size) level
    else if c = '(' then
      (if level + 1 > 32 then none else dest_bare rest (pos + 1) (level + 1))
    else if c = ')' then
      (if level = 0 then some pos else dest_bare rest (pos + 1) (level - 1))
    else dest_bare rest (pos + c.utf8Size) level

/-- `<...>` scan loop of `parse_link_destination` (full_link.rs lines 200-223). -/
def dest_angle (str : List Char) (start : Nat) : List Char → Nat → Option ParseLinkFragmentResult
  | [], _ => none
  | c :: rest, pos =>
    if c = '\n' ∨ c = '<' then none
    else if c = '>' then some ⟨pos + 1, 0, unescape_all (byteSlice str (start + 1) pos)⟩
    else if c = '\\' then
      match rest with
      | [] => none
      | x :: rest' => dest_angle str start rest' (pos + 1 + x.utf8Size)
    else dest_angle str start rest (pos + c.utf8Size)

/-- Translation of `parse_link_destination` (full_link.rs lines 196-260). -/
def parse_link_destination (str : List Char) (start max : Nat) : Option ParseLinkFragmentResult :=
  match byteSlice str start max with
  | '<' :: rest => dest_angle str start rest (start + 1)
  | cs =>
    match dest_bare cs start 0 with
    | some p => some ⟨p, 0, unescape_all (byteSlice str start p)⟩
    | none => none

/-- Closing marker selected by the first char of a title
(full_link.rs lines 269-274). -/
def marker_of (c : Char) : Option Char :=
  if c = '"' then some '"' else if c = '\'' then some '\'' else if c = '(' then some ')' else none

/-- Scan loop of `parse_link_title` (full_link.rs lines 276-305). -/
def title_loop (str : List Char) (start : Nat) (marker : Char) :
    List Char → Nat → Nat → Option ParseLinkFragmentResult
  | [], _, _ => none
  | c :: rest, pos, lines =>
    if c = marker then some ⟨pos + 1, lines, unescape_all (byteSlice str (start + 1) pos)⟩
    else if c = '(' ∧ marker = ')' then none
    else if c = '\n' then title_loop str start marker rest (pos + 1) (lines + 1)
    else if c = '\\' then
      match rest with
      | [] => none
      | x :: rest' => title_loop str start marker rest' (pos + 1 + x.utf8Size) lines
    else title_loop str start marker rest (pos + c.utf8Size) lines

/-- Translation of `parse_link_title` (full_link.rs lines 264-306). -/
def parse_link_title (str : List Char) (start max : Nat) : Option ParseLinkFragmentResult :=
  match byteSlice str start max with
  | [] => none
  | c :: rest =>
    match marker_of c with
    | none => none
    | some marker => title_loop str start marker rest (start + 1) 0

/-- Node payload variants needed by the claims (Text, Link, the inline root,
and the Autolink payload of autolink.rs). -/
inductive NodeKind where
  | root
  | text (content : List Char)
  | link (href : Option (List Char)) (title : Option (List Char))
  | autolink (url : List Char)
deriving DecidableEq

/-- AST node: a payload plus an ordered child list (source maps, which no
claim mentions, are not modelled). -/
inductive Node where
  | node (kind : NodeKind) (children : List Node)

def Node.kind : Node → NodeKind
  | .node k _ => k

def Node.children : Node → List Node
  | .node _ cs => cs

def Node.isText : Node → Bool
  | .node (.text _) _ => true
  | _ => false

def push_child (n : Node) (c : Node) : Node :=
  .node n.kind (n.children ++ [c])

/-- `node.children = result.nodes` of full_link.rs line 106. -/
def with_children (n : Node) (cs : List Node) : Node :=
  .node n.kind cs

/-- Modelled from the spec: text fallback of the inline tokenizer
("consecutive text characters are merged into a single Text node"):
a char is appended to a trailing Text node, or starts a new one. -/
def text_append : List Node → Char → List Node
  | [], ch => [.node (.text [ch]) []]
  | [.node (.text s) cs], ch => [.node (.text (s ++ [ch])) cs]
  | n :: rest, ch => n :: text_append rest ch

/-- A reference-map value: `(destination, optional_title)`. -/
structure RefItem where
  destination : List Char
  title : Option (List Char)

/-- Modelled from the spec: the document reference map
(`plugins::cmark::block::reference`, not under `src/`), a table from labels
to `RefItem`s, looked up through the normalized label. -/
abbrev RefMap := List (List Char × RefItem)

def ref_words : List Char → List Char → List (List Char)
  | [], acc => if acc.isEmpty then [] else [acc.reverse]
  | c :: rest, acc =>
    if c = ' ' ∨ c = '\t' ∨ c = '\n' ∨ c.toNat = 11 ∨ c.toNat = 12 ∨ c.toNat = 13 then
      (if acc.isEmpty then ref_words rest [] else acc.reverse :: ref_words rest [])
    else ref_words rest (c :: acc)

/-- Modelled from the spec: `ReferenceMapKey` normalization — "Unicode
case-fold, collapse runs of ASCII whitespace to a single space, trim ends". -/
def normalize_reference (l : List Char) : List Char :=
  List.intercalate [' '] (ref_words (l.map Char.toLower) [])

/-- Lookup `references.get(&ReferenceMapKey::new(label))`: keys are compared
through `normalize_reference`. -/
def ref_get (refs : RefMap) (label : List Char) : Option RefItem :=
  (refs.find? (fun e => normalize_reference e.1 == normalize_reference label)).map (·.2)

/-- The `validate_link`/`normalize_link`/`normalize_link_text` hooks of the
`MarkdownIt` struct (src/lib.rs lines 22-33). -/
structure Md where
  validate_link : List Char → Bool
  normalize_link : List Char → List Char
  normalize_link_text : List Char → List Char

/-- `BAD_PROTO_RE` of src/lib.rs: case-insensitive anchored
`^(vbscript|javascript|file|data):`, an anchored prefix test. -/
def bad_proto_match (s : List Char) : Bool :=
  ["vbscript:", "javascript:", "file:", "data:"].any
    (fun p => p.data.isPrefixOf (s.map Char.toLower))

/-- `GOOD_DATA_RE` of src/lib.rs: case-insensitive anchored
`^data:image/(gif|png|jpeg|webp);`. -/
def good_data_match (s : List Char) : Bool :=
  ["data:image/gif;", "data:image/png;", "data:image/jpeg;", "data:image/webp;"].any
    (fun p => p.data.isPrefixOf (s.map Char.toLower))

/-- Translation of `validate_link` (src/lib.rs lines 50-52). -/
def validate_link (s : List Char) : Bool :=
  !bad_proto_match s || good_data_match s

def is_hex_digit (c : Char) : Bool :=
  c.isDigit || decide (97 ≤ c.toNat ∧ c.toNat ≤ 102) || decide (65 ≤ c.toNat ∧ c.toNat ≤ 70)

def hex_digit_char (n : Nat) : Char :=
  if n < 10 then Char.ofNat (48 + n) else Char.ofNat (55 + n)

/-- The ASCII set preserved by the default `normalize_link`
(src/lib.rs line 56). -/
def preserved_set : List Char := ";/?:@&=+$,-_.!~*'()#".data

/-- Modelled from the spec: the default `normalize_link` is `mdurl::encode`
(not under `src/`): "percent-encoding preserving the ASCII set
`;/?:@&=+$,-_.!~*'()#`, encoding over an already-encoded input".
Alphanumerics and the preserved set pass through, an existing `%XX` escape is
kept, anything else is percent-encoded (byte-level encoding of non-ASCII
codepoints is approximated by their low byte; no claim exercises it). -/
def normalize_link : List Char → List Char
  | [] => []
  | '%' :: a :: b :: rest =>
    if is_hex_digit a ∧ is_hex_digit b then '%' :: a :: b :: normalize_link rest
    else '%' :: '2' :: '5' :: normalize_link (a :: b :: rest)
  | c :: rest =>
    if c.isAlphanum || preserved_set.contains c then c :: normalize_link rest
    else '%' :: hex_digit_char (c.toNat % 256 / 16) :: hex_digit_char (c.toNat % 16) :: normalize_link rest

/-- The default hook set of `MarkdownIt::new` (src/lib.rs lines 76-88);
`normalize_link_text` is the identity (src/lib.rs lines 60-62). -/
def default_md : Md := ⟨validate_link, normalize_link, fun s => s⟩

/-- The scan-wide `inline_env` contents used by full_link.rs: the `SeenLinks`
flag and the `LinkLabelScanCache` (a map from an opening-bracket byte offset
to `None` = proven no close, or `Some (children, end)`).  `labelScans` is
ghost instrumentation with no influence on any other field or on control
flow: it records the offset of every interior label scan that actually runs
(i.e. every cache miss), newest first, and exists only so that "the interior
is parsed at most once" can be stated. -/
structure InlineEnv where
  seenLinks : Bool
  cache : List (Nat × Option (List Node × Nat))
  labelScans : List Nat

def cache_find : List (Nat × Option (List Node × Nat)) → Nat → Option (Option (List Node × Nat))
  | [], _ => none
  | e :: t, k => if e.1 = k then some e.2 else cache_find t k

def cache_erase : List (Nat × Option (List Node × Nat)) → Nat → List (Nat × Option (List Node × Nat))
  | [], _ => []
  | e :: t, k => if e.1 = k then cache_erase t k else e :: cache_erase t k

/-- `HashMap::get` on the label-scan cache. -/
def cacheGet (env : InlineEnv) (k : Nat) : Option (Option (List Node × Nat)) :=
  cache_find env.cache k

/-- `HashMap::insert`: at most one entry per key. -/
def cacheInsert (env : InlineEnv) (k : Nat) (v : Option (List Node × Nat)) : InlineEnv :=
  { env with cache := (k, v) :: cache_erase env.cache k }

/-- `HashMap::remove` (the removed value is read with `cacheGet` first). -/
def cacheRemoveEnv (env : InlineEnv) (k : Nat) : InlineEnv :=
  { env with cache := cache_erase env.cache k }

/-- `cache.0.remove(&k).unwrap().unwrap().0` of full_link.rs lines 370-373:
the children stored under a key (default `[]` on the unreachable miss). -/
def entry_kids : Option (Option (List Node × Nat)) → List Node
  | some (some (kids, _)) => kids
  | _ => []

/-- Mutable part of `InlineState`: cursor, output node, scan environment. -/
structure MState where
  pos : Nat
  node : Node
  env : InlineEnv

/-- Part of `InlineState` that no inline rule mutates during a scan:
the source window, its bound, the `MarkdownIt` hooks, and the (read-only)
document reference map from `root_env`. -/
structure Ctx where
  src : List Char
  posMax : Nat
  md : Md
  refs : Option RefMap

/-- `ParseLinkResult` of full_link.rs lines 308-313 (`end_pos` is the Rust
field `end`, renamed because `end` is reserved in Lean). -/
structure ParseLinkResult where
  nodes : List Node
  href : Option (List Char)
  title : Option (List Char)
  end_pos : Nat

def skip_ws_go : List Char → Nat → Nat
  | c :: rest, p => if c = ' ' ∨ c = '\t' ∨ c = '\n' then skip_ws_go rest (p + 1) else p
  | [], p => p

/-- The whitespace-skipping loops of `parse_link`
(`while let Some(' ' | '\t' | '\n') = chars.next() { pos += 1 }`). -/
def skipWs (src : List Char) (max p : Nat) : Nat :=
  skip_ws_go (byteSlice src p max) p

/-- The destination/title phase of the inline form (full_link.rs lines
341-366), starting at the already-whitespace-skipped position `p`: returns
the position for the final `)` check together with href and title.  When the
destination's normalized URL fails `validate_link`, href stays `none` and the
position is not advanced (lines 343-346). -/
def inline_href_title (md : Md) (src : List Char) (p max : Nat) :
    Nat × Option (List Char) × Option (List Char) :=
  match parse_link_destination src p max with
  | none => (p, none, none)
  | some res =>
    let href_candidate := md.normalize_link res.str
    let ph : Nat × Option (List Char) :=
      if md.validate_link href_candidate then (res.pos, some href_candidate) else (p, none)
    let p2 := skipWs src max ph.1
    match parse_link_title src p2 max with
    | some res2 => (skipWs src max res2.pos, ph.2, some res2.str)
    | none => (p2, ph.2, none)

/-- Node factory of the cmark link rule: `|href, title| Node::new(Link { .. })`
(registered through `full_link::add::<false>`, links have nesting disabled). -/
def link_factory (href : Option (List Char)) (title : Option (List Char)) : Node :=
  .node (.link href title) []

/-- Shared tail of `parse_link` (full_link.rs lines 400-421): reference-map
lookup with the effective label, consuming the cache entry of the first
label even on a lookup miss.  `maybeLabel = none` is the shortcut form,
`some []` the collapsed form; both fall back to `src[label_start..label_end]`. -/
def finish_ref (ctx : Ctx) (st : MState) (labelStart labelEnd : Nat)
    (maybeLabel : Option (List Char)) (p : Nat) : Option ParseLinkResult × MState :=
  match ctx.refs with
  | some references =>
    let label :=
      if maybeLabel = none ∨ maybeLabel = some [] then byteSlice ctx.src labelStart labelEnd
      else maybeLabel.getD []
    let lref := ref_get references label
    let entry := cacheGet st.env (labelStart - 1)
    let st' := { st with env := cacheRemoveEnv st.env (labelStart - 1) }
    (lref.map (fun r => ⟨entry_kids entry, some r.destination, r.title, p⟩), st')
  | none => (none, st)

/-!
The engine below is tied together through a tokenizer parameter
`tok : MState → Bool × MState`, which stands for the rule dispatch reached as
`state.md.inline.tokenize_one(state)` in the Rust code; `tokenize_one` below
instantiates it with the cmark link rule set.  The `fuel` argument bounds the
label-scan loop (the Rust loop is bounded by the cursor reaching `pos_max`;
every theorem quantifies over the fuel or uses a concrete sufficient one).
-/

/-- Scan loop of `parse_link_label` (full_link.rs lines 143-162): walk the
interior, tracking bracket nesting; abort when a nested link was committed
while `enable_nested` is false. -/
def label_loop (ctx : Ctx) (tok : MState → Bool × MState) (enableNested : Bool) :
    Nat → MState → Nat → Bool × MState
  | 0, st, _ => (false, st)
  | fuel + 1, st, level =>
    match headSlice ctx.src st.pos ctx.posMax with
    | none => (false, st)
    | some ch =>
      let level' := if ch = ']' then level - 1 else level
      if ch = ']' ∧ level' = 0 then (true, st)
      else
        let r := tok st
        if enableNested = false ∧ r.2.env.seenLinks = true then (false, r.2)
        else label_loop ctx tok enableNested fuel r.2 (if r.1 = false ∧ ch = '[' then level' + 1 else level')

/-- Translation of `parse_link_label` (full_link.rs lines 125-182): cache
lookup, save/reset of `node`, `pos` and the `SeenLinks` flag, interior scan,
cache fill, restore.  The ghost `labelScans` field records the cache miss. -/
def parse_link_label (ctx : Ctx) (tok : MState → Bool × MState) (fuel : Nat)
    (st : MState) (start : Nat) (enableNested : Bool) : Option Nat × MState :=
  match cacheGet st.env start with
  | some entry => (entry.map (·.2), st)
  | none =>
    let oldroot := st.node
    let oldseen := st.env.seenLinks
    let oldPos := st.pos
    let stScan : MState :=
      { pos := start + 1,
        node := .node .root [],
        env := { st.env with seenLinks := false, labelScans := start :: st.env.labelScans } }
    match label_loop ctx tok enableNested fuel stScan 1 with
    | (found, st1) =>
      let insEnv :=
        if found then cacheInsert st1.env start (some (st1.node.children, st1.pos))
        else cacheInsert st1.env start none
      ((if found then some st1.pos else none),
       { pos := oldPos,
         node := oldroot,
         env := { insEnv with seenLinks := oldseen || insEnv.seenLinks } })

/-- Reference form of `parse_link` (full_link.rs lines 385-421): optional
second label (scanned with `enable_nested = false`), then `finish_ref`. -/
def reference_form (ctx : Ctx) (tok : MState → Bool × MState) (fuel : Nat)
    (st : MState) (labelStart labelEnd : Nat) : Option ParseLinkResult × MState :=
  match headSlice ctx.src (labelEnd + 1) ctx.posMax with
  | some '[' =>
    match parse_link_label ctx tok fuel st (labelEnd + 1) false with
    | (some x, st2) => finish_ref ctx st2 labelStart labelEnd (some (byteSlice ctx.src (labelEnd + 2) x)) (x + 1)
    | (none, st2) => finish_ref ctx st2 labelStart labelEnd none (labelEnd + 1)
  | _ => finish_ref ctx st labelStart labelEnd none (labelEnd + 1)

/-- Translation of `parse_link` (full_link.rs lines 319-422): label, then the
inline form `(dest title)` when `(` follows and the group is closed by `)`;
otherwise the reference form, restarted at `label_end + 1`. -/
def parse_link (ctx : Ctx) (tok : MState → Bool × MState) (fuel : Nat)
    (st : MState) (pos : Nat) (enableNested : Bool) : Option ParseLinkResult × MState :=
  match parse_link_label ctx tok fuel st pos enableNested with
  | (none, st1) => (none, st1)
  | (some labelEnd, st1) =>
    let labelStart := pos + 1
    if headSlice ctx.src (labelEnd + 1) ctx.posMax = some '(' then
      let p0 := skipWs ctx.src ctx.posMax (labelEnd + 2)
      let iht := inline_href_title ctx.md ctx.src p0 ctx.posMax
      if headSlice ctx.src iht.1 ctx.posMax = some ')' then
        (some ⟨entry_kids (cacheGet st1.env (labelStart - 1)), iht.2.1, iht.2.2, iht.1 + 1⟩,
         { st1 with env := cacheRemoveEnv st1.env (labelStart - 1) })
      else reference_form ctx tok fuel st1 labelStart labelEnd
    else reference_form ctx tok fuel st1 labelStart labelEnd

/-- Translation of `rule` (full_link.rs lines 89-114): on success build the
node from the factory, attach the parsed label children, push it, set
`SeenLinks` when nesting is disabled, and return the consumed byte count. -/
def rule (ctx : Ctx) (tok : MState → Bool × MState) (fuel : Nat) (st : MState)
    (enableNested : Bool) (offset : Nat)
    (f : Option (List Char) → Option (List Char) → Node) : Option Nat × MState :=
  match parse_link ctx tok fuel st (st.pos + offset) enableNested with
  | (some result, st') =>
    let n := with_children (f result.href result.title) result.nodes
    (some (result.end_pos - st'.pos),
     { st' with
       node := push_child st'.node n,
       env := if enableNested then st'.env else { st'.env with seenLinks := true } })
  | (none, st2) => (none, st2)

/-- Modelled from the spec: the text fallback of the tokenizer appends one
char to the trailing Text node and advances one UTF-8 char. -/
def push_text (st : MState) (ch : Char) : MState :=
  { st with
    node := .node st.node.kind (text_append st.node.children ch),
    pos := st.pos + ch.utf8Size }

/-- Modelled from the spec: one step of the inline tokenizer (§4.E
`tokenize_one`) with the cmark link rule set registered: `[` dispatches to
the link rule (`LinkScanner<false>`, links have nesting disabled), `]`
dispatches to the passive `LinkScannerEnd` which never matches, and any
unconsumed char falls back to text.  Returns whether a non-text token was
produced. -/
def tok_step (ctx : Ctx) (tok : MState → Bool × MState) (fuel : Nat) (st : MState) :
    Bool × MState :=
  match headSlice ctx.src st.pos ctx.posMax with
  | none => (false, st)
  | some ch =>
    if ch = '[' then
      match rule ctx tok fuel st false 0 link_factory with
      | (some n, st2) => (true, { st2 with pos := st2.pos + n })
      | (none, st2) => (false, push_text st2 ch)
    else (false, push_text st ch)

/-- The re-entry primitive `state.md.inline.tokenize_one(state)`: `tok_step`
with the recursion knot tied through fuel. -/
def tokenize_one (ctx : Ctx) : Nat → MState → Bool × MState
  | 0 => fun st => (false, st)
  | fuel + 1 => fun st => tok_step ctx (tokenize_one ctx fuel) fuel st

/-- Modelled from the spec: the inline driver loop (§4.E `tokenize`), running
`tokenize_one` until the cursor reaches `pos_max`. -/
def tokenize (ctx : Ctx) : Nat → MState → MState
  | 0, st => st
  | fuel + 1, st => if st.pos < ctx.posMax then tokenize ctx fuel (tokenize_one ctx fuel st).2 else st

/-- One full inline scan over `src` with the default hooks, an empty scan
environment, and the given document reference map. -/
def parse_inline_state (fuel : Nat) (src : List Char) (refs : Option RefMap) : MState :=
  tokenize ⟨src, utf8Len src, default_md, refs⟩ fuel ⟨0, .node .root [], ⟨false, [], []⟩⟩

def parse_inline (fuel : Nat) (src : List Char) (refs : Option RefMap) : List Node :=
  (parse_inline_state fuel src refs).node.children

/-- Scheme-char class `[a-zA-Z0-9+.\-]` of `AUTOLINK_RE` (autolink.rs line 32). -/
def scheme_char (c : Char) : Bool :=
  c.isAlphanum || c == '+' || c == '.' || c == '-'

/-- Splits the part after the first scheme char at the `:`; returns the tail
when the remaining scheme length is within the `{1,31}` bound.  Since `:` is
not a scheme char, the anchored regex matches exactly when the first `:`
terminates the scheme. -/
def autolink_scheme_tail : List Char → Nat → Option (List Char)
  | [], _ => none
  | c :: rest, n =>
    if c = ':' then (if 1 ≤ n ∧ n ≤ 31 then some rest else none)
    else if scheme_char c then autolink_scheme_tail rest (n + 1)
    else none

/-- The anchored regex `AUTOLINK_RE` (autolink.rs line 32):
`^([a-zA-Z][a-zA-Z0-9+.\-]{1,31}):([^<>\x00-\x20]*)$`. -/
def is_autolink_url (cs : List Char) : Bool :=
  match cs with
  | [] => false
  | c :: rest =>
    c.isAlpha &&
    (match autolink_scheme_tail rest 0 with
     | some tail => tail.all (fun x => !(x == '<' || x == '>' || decide (x.toNat ≤ 32)))
     | none => false)

/-- Local-part char class of `EMAIL_RE` (autolink.rs line 36). -/
def email_local_char (c : Char) : Bool :=
  c.isAlphanum || ".!#$%&'*+/=?^_-".data.contains c ||
  c.toNat == 96 || c.toNat == 123 || c.toNat == 124 || c.toNat == 125 || c.toNat == 126

/-- Split a char list at the first `@`. -/
def split_at_amp : List Char → Option (List Char × List Char)
  | [] => none
  | '@' :: t => some ([], t)
  | c :: t => (split_at_amp t).map (fun p => (c :: p.1, p.2))

/-- One domain label of `EMAIL_RE`:
`[a-zA-Z0-9](?:[a-zA-Z0-9-]{0,61}[a-zA-Z0-9])?` — 1 to 63 chars of
alphanumerics and hyphens, first and last alphanumeric. -/
def domain_label_ok (l : List Char) : Bool :=
  match l with
  | [] => false
  | c :: _ =>
    c.isAlphanum && decide (l.length ≤ 63) && l.all (fun x => x.isAlphanum || x == '-') &&
    ((l.getLast?.map Char.isAlphanum).getD false)

/-- Split a char list on `.`, keeping empty segments. -/
def split_dots : List Char → List (List Char)
  | [] => [[]]
  | '.' :: t => [] :: split_dots t
  | c :: t =>
    match split_dots t with
    | h :: r => (c :: h) :: r
    | [] => [[c]]

/-- The anchored regex `EMAIL_RE` (autolink.rs line 36): a nonempty local
part, `@`, and a dot-separated list of valid domain labels. -/
def is_email_url (cs : List Char) : Bool :=
  match split_at_amp cs with
  | none => false
  | some (l, d) => !l.isEmpty && l.all email_local_char && (split_dots d).all domain_label_ok

/-- The `<`...`>` scan of `get_link` (autolink.rs lines 67-78): returns the
position one past the `>` (so the `>` itself sits at byte `p - 1`). -/
def angle_go : List Char → Nat → Option Nat
  | [], _ => none
  | c :: rest, p =>
    if c = '<' then none
    else if c = '>' then some p
    else angle_go rest (p + c.utf8Size)

def scan_angle (src : List Char) (pos max : Nat) : Option Nat :=
  match byteSlice src pos max with
  | '<' :: rest => angle_go rest (pos + 2)
  | _ => none

/-- The full URL tested by `get_link`: emails get `mailto:` prepended before
normalization (autolink.rs lines 86-90). -/
def full_url_of (md : Md) (url : List Char) : List Char :=
  if is_autolink_url url then md.normalize_link url
  else md.normalize_link ("mailto:".data ++ url)

/-- Translation of `get_link` (autolink.rs lines 66-95). -/
def get_link (md : Md) (src : List Char) (pos max : Nat) : Option (Nat × List Char) :=
  match scan_angle src pos max with
  | none => none
  | some p =>
    let url := byteSlice src (pos + 1) (p - 1)
    if !is_autolink_url url && !is_email_url url then none
    else
      let full_url := full_url_of md url
      if !(md.validate_link full_url) then none
      else some (p - pos, full_url)

/-- Translation of `AutolinkScanner::check` (autolink.rs lines 44-46). -/
def autolink_check (ctx : Ctx) (st : MState) : Option Nat :=
  (get_link ctx.md ctx.src st.pos ctx.posMax).map (·.1)

/-- Translation of `AutolinkScanner::run` (autolink.rs lines 48-63): on a
match, push an Autolink node holding one Text child. -/
def autolink_run (ctx : Ctx) (st : MState) : Option Nat × MState :=
  match get_link ctx.md ctx.src st.pos ctx.posMax with
  | none => (none, st)
  | some (len, full_url) =>
    let content := ctx.md.normalize_link_text (byteSlice ctx.src (st.pos + 1) (st.pos + len - 1))
    let n : Node := .node (.autolink full_url) [.node (.text content) []]
    (some len, { st with node := push_child st.node n })

/-! ### Basic lemmas about slices and the cache -/

lemma byteSlice_self (cs : List Char) : ∀ s, byteSlice cs s s = [] := by
  induction cs with
  | nil => intro s; rfl
  | cons c t ih =>
    intro s
    unfold byteSlice
    by_cases h : s = 0
    · subst h
      simp [Nat.not_le.mpr c.utf8Size_pos]
    · simp only [h, if_false]
      by_cases h2 : c.utf8Size ≤ s
      · simp [h2, ih]
      · simp [h2]

lemma byteSlice_full (cs : List Char) : byteSlice cs 0 (utf8Len cs) = cs := by
  induction cs with
  | nil => rfl
  | cons c t ih =>
    unfold byteSlice utf8Len
    simp [Nat.le_add_right, ih]

lemma cache_find_erase (l : List (Nat × Option (List Node × Nat))) (k k' : Nat) :
    cache_find (cache_erase l k) k' = if k' = k then none else cache_find l k' := by
  induction l with
  | nil => simp [cache_erase, cache_find]
  | cons e t ih =>
    simp only [cache_erase]
    by_cases he : e.1 = k
    · simp only [if_pos he, ih]
      by_cases hk : k' = k
      · simp [hk]
      · have hne : ¬ e.1 = k' := by rw [he]; exact fun hh => hk hh.symm
        simp [hk, cache_find, hne]
    · simp only [if_neg he, cache_find]
      by_cases hk : e.1 = k'
      · have hne : ¬ k' = k := fun hh => he ((hk.trans hh))
        simp [hk, hne]
      · simp [hk, ih]

lemma cacheGet_insert_self (env : InlineEnv) (k : Nat) (v : Option (List Node × Nat)) :
    cacheGet (cacheInsert env k v) k = some v := by
  simp [cacheGet, cacheInsert, cache_find]

lemma cacheGet_insert_ne (env : InlineEnv) (k k' : Nat) (v : Option (List Node × Nat))
    (h : k' ≠ k) : cacheGet (cacheInsert env k v) k' = cacheGet env k' := by
  simp [cacheGet, cacheInsert, cache_find, Ne.symm h, cache_find_erase, h]

lemma cacheGet_remove (env : InlineEnv) (k k' : Nat) :
    cacheGet (cacheRemoveEnv env k) k' = if k' = k then none else cacheGet env k' := by
  simp [cacheGet, cacheRemoveEnv, cache_find_erase]

/-! ### Frame lemmas: the label scanner and the link parser restore the
cursor and the output node -/

lemma parse_link_label_frame (ctx : Ctx) (tok : MState → Bool × MState) (fuel : Nat)
    (st : MState) (start : Nat) (en : Bool) (r : Option Nat) (st' : MState)
    (h : parse_link_label ctx tok fuel st start en = (r, st')) :
    st'.pos = st.pos ∧ st'.node = st.node ∧
    (st.env.seenLinks = true → st'.env.seenLinks = true) := by
  unfold parse_link_label at h
  split at h
  · cases h; simp
  · dsimp only at h
    split at h <;> (cases h; simp +contextual [cacheInsert])

lemma finish_ref_frame (ctx : Ctx) (st : MState) (a b : Nat) (ml : Option (List Char)) (p : Nat)
    (r : Option ParseLinkResult) (st' : MState)
    (h : finish_ref ctx st a b ml p = (r, st')) :
    st'.pos = st.pos ∧ st'.node = st.node := by
  unfold finish_ref at h
  split at h
  · cases h; simp
  · cases h; simp

lemma reference_form_frame (ctx : Ctx) (tok : MState → Bool × MState) (fuel : Nat)
    (st : MState) (a b : Nat) (r : Option ParseLinkResult) (st' : MState)
    (h : reference_form ctx tok fuel st a b = (r, st')) :
    st'.pos = st.pos ∧ st'.node = st.node := by
  unfold reference_form at h
  split at h
  · split at h
    · rename_i x st2 hx
      have h1 := finish_ref_frame _ _ _ _ _ _ _ _ h
      have h2 := parse_link_label_frame _ _ _ _ _ _ _ _ hx
      exact ⟨h1.1.trans h2.1, h1.2.trans h2.2.1⟩
    · rename_i st2 hx
      have h1 := finish_ref_frame _ _ _ _ _ _ _ _ h
      have h2 := parse_link_label_frame _ _ _ _ _ _ _ _ hx
      exact ⟨h1.1.trans h2.1, h1.2.trans h2.2.1⟩
  · exact finish_ref_frame _ _ _ _ _ _ _ _ h

lemma parse_link_frame (ctx : Ctx) (tok : MState → Bool × MState) (fuel : Nat)
    (st : MState) (pos : Nat) (en : Bool) (r : Option ParseLinkResult) (st' : MState)
    (h : parse_link ctx tok fuel st pos en = (r, st')) :
    st'.pos = st.pos ∧ st'.node = st.node := by
  unfold parse_link at h
  split at h
  · rename_i st1 hl
    cases h
    have h2 := parse_link_label_frame _ _ _ _ _ _ _ _ hl
    exact ⟨h2.1, h2.2.1⟩
  · rename_i labelEnd st1 hl
    have h2 := parse_link_label_frame _ _ _ _ _ _ _ _ hl
    simp only at h
    split at h
    · split at h
      · cases h
        exact ⟨h2.1, h2.2.1⟩
      · have h1 := reference_form_frame _ _ _ _ _ _ _ _ h
        exact ⟨h1.1.trans h2.1, h1.2.trans h2.2.1⟩
    · have h1 := reference_form_frame _ _ _ _ _ _ _ _ h
      exact ⟨h1.1.trans h2.1, h1.2.trans h2.2.1⟩

lemma rule_none_frame (ctx : Ctx) (tok : MState → Bool × MState) (fuel : Nat) (st : MState)
    (en : Bool) (off : Nat) (f : Option (List Char) → Option (List Char) → Node) (st' : MState)
    (h : rule ctx tok fuel st en off f = (none, st')) :
    st'.pos = st.pos ∧ st'.node = st.node := by
  unfold rule at h
  split at h
  · simp at h
  · rename_i st2 hp
    cases h
    exact parse_link_frame _ _ _ _ _ _ _ _ hp

/-! ### C9 -/

/-- C9: for every call to `parse_link_label` (success or failure), upon
return `state.pos` and `state.node` equal their entry values, and the
`SeenLinks` flag is present after return whenever it was present at entry. -/
theorem c9_label_scan_restores_state (ctx : Ctx) (tok : MState → Bool × MState) (fuel : Nat)
    (st : MState) (start : Nat) (en : Bool) (r : Option Nat) (st' : MState)
    (h : parse_link_label ctx tok fuel st start en = (r, st')) :
    st'.pos = st.pos ∧ st'.node = st.node ∧
    (st.env.seenLinks = true → st'.env.seenLinks = true) :=
  parse_link_label_frame ctx tok fuel st start en r st' h

def c9_ctx : Ctx := ⟨"[a]".data, 3, default_md, none⟩

def c9_st : MState := ⟨0, .node .root [], ⟨true, [], []⟩⟩

theorem c9_witness :
    (parse_link_label c9_ctx (tokenize_one c9_ctx 20) 20 c9_st 0 false).2.pos = 0 ∧
    (parse_link_label c9_ctx (tokenize_one c9_ctx 20) 20 c9_st 0 false).2.node = Node.node .root [] ∧
    (parse_link_label c9_ctx (tokenize_one c9_ctx 20) 20 c9_st 0 false).2.env.seenLinks = true := by
  have hh := c9_label_scan_restores_state c9_ctx (tokenize_one c9_ctx 20) 20 c9_st 0 false
    (parse_link_label c9_ctx (tokenize_one c9_ctx 20) 20 c9_st 0 false).1
    (parse_link_label c9_ctx (tokenize_one c9_ctx 20) 20 c9_st 0 false).2 rfl
  exact ⟨hh.1, hh.2.1, hh.2.2 rfl⟩

/-! ### C1 -/

/-- C1: when the label is followed by `(` , the inline form is committed as
soon as the final position check sees `)` — href and title taken from the
group and the end set one past the `)` — independently of the reference map
(`ctx.refs` is arbitrary); when the `)` is missing, `parse_link` equals the
reference form restarted at `label_end + 1`, consuming none of the `(...)`. -/
theorem c1_inline_form_tiebreak (ctx : Ctx) (tok : MState → Bool × MState) (fuel : Nat)
    (st : MState) (pos : Nat) (en : Bool) (labelEnd : Nat) (st1 : MState)
    (hl : parse_link_label ctx tok fuel st pos en = (some labelEnd, st1))
    (hp : headSlice ctx.src (labelEnd + 1) ctx.posMax = some '(') :
    (headSlice ctx.src
        (inline_href_title ctx.md ctx.src (skipWs ctx.src ctx.posMax (labelEnd + 2)) ctx.posMax).1
        ctx.posMax = some ')' →
      parse_link ctx tok fuel st pos en =
        (some ⟨entry_kids (cacheGet st1.env pos),
               (inline_href_title ctx.md ctx.src (skipWs ctx.src ctx.posMax (labelEnd + 2)) ctx.posMax).2.1,
               (inline_href_title ctx.md ctx.src (skipWs ctx.src ctx.posMax (labelEnd + 2)) ctx.posMax).2.2,
               (inline_href_title ctx.md ctx.src (skipWs ctx.src ctx.posMax (labelEnd + 2)) ctx.posMax).1 + 1⟩,
         { st1 with env := cacheRemoveEnv st1.env pos })) ∧
    (headSlice ctx.src
        (inline_href_title ctx.md ctx.src (skipWs ctx.src ctx.posMax (labelEnd + 2)) ctx.posMax).1
        ctx.posMax ≠ some ')' →
      parse_link ctx tok fuel st pos en = reference_form ctx tok fuel st1 (pos + 1) labelEnd) := by
  constructor
  · intro hcl
    unfold parse_link
    rw [hl]
    simp [hp, hcl]
  · intro hcl
    unfold parse_link
    rw [hl]
    simp [hp, hcl]

def c1_ctx : Ctx := ⟨"[a](b)".data, 6, default_md, some [("a".data, ⟨"/ref".data, none⟩)]⟩

def c1_st : MState := ⟨0, .node .root [], ⟨false, [], []⟩⟩

theorem c1_witness :
    parse_link c1_ctx (tokenize_one c1_ctx 20) 20 c1_st 0 false =
      (some ⟨[Node.node (.text "a".data) []], some "b".data, none, 6⟩,
       ⟨0, Node.node .root [], ⟨false, [], [0]⟩⟩) :=
  (c1_inline_form_tiebreak c1_ctx (tokenize_one c1_ctx 20) 20 c1_st 0 false 2
    ⟨0, Node.node .root [], ⟨false, [(0, some ([Node.node (.text "a".data) []], 2))], [0]⟩⟩
    rfl rfl).1 rfl

/-! ### C2 -/

def c2_input : List Char := "[a [b](c) d](e)".data

def is_link_with_href (n : Node) (h : List Char) : Bool :=
  match n with
  | .node (.link (some h') _) _ => h' == h
  | _ => false

/-- C2 (counterexample): on `[a [b](c) d](e)` with links registered with
nesting disabled, no node of the resulting inline scan is a Link with href
`e` — the committed inner link aborts the outer label via `SeenLinks`, so no
outer link is formed, contradicting the claim. -/
theorem c2_counterexample :
    (parse_inline 60 c2_input none).all (fun n => !(is_link_with_href n "e".data)) = true := by
  rfl

/-- C2 (amended): on `[a [b](c) d](e)` the inner `[b](c)` is committed as a
Link node with href `c` at the top level, and the outer bracket text `[a `
and ` d](e)` becomes literal text; no outer Link with href `e` exists. -/
theorem c2_amended_result :
    parse_inline 60 c2_input none =
      [Node.node (.text "[a ".data) [],
       Node.node (.link (some "c".data) none) [Node.node (.text "b".data) []],
       Node.node (.text " d](e)".data) []] := by
  rfl

/-! ### C3 -/

/-- C3 (counterexample): during the single inline scan of `[a [b](c) d](e)`,
the interior of the label at byte offset 3 is parsed twice (the ghost
`labelScans` log records every cache-miss interior scan): the first scan's
entry is consumed when the inner link commits, so the later top-level attempt
misses the cache and re-parses. -/
theorem c3_counterexample :
    ((parse_inline_state 60 c2_input none).env.labelScans.count 3) = 2 := by
  rfl

lemma count_erase_key (l : List (Nat × Option (List Node × Nat))) (k : Nat) :
    ((cache_erase l k).map (·.1)).count k = 0 := by
  induction l with
  | nil => rfl
  | cons e t ih =>
    simp only [cache_erase]
    by_cases he : e.1 = k
    · simp [he, ih]
    · simp [he, ih, List.count_cons]

/-- C3 (amended): `parse_link_label` returns the cached result (with no state
change) whenever a cache entry exists for the offset, and the cache holds at
most one entry per offset — exactly one right after an insert, none right
after a removal.  Entries are, however, consumed when `parse_link` finalizes
(see the counterexample), after which the interior may be parsed again. -/
theorem c3_amended_cache_behavior :
    (∀ (ctx : Ctx) (tok : MState → Bool × MState) (fuel : Nat) (st : MState) (start : Nat)
       (en : Bool) (entry : Option (List Node × Nat)),
       cacheGet st.env start = some entry →
       parse_link_label ctx tok fuel st start en = (entry.map (·.2), st)) ∧
    (∀ (env : InlineEnv) (k : Nat) (v : Option (List Node × Nat)),
       (((cacheInsert env k v).cache.map (·.1)).count k = 1) ∧
       (((cacheRemoveEnv env k).cache.map (·.1)).count k = 0)) := by
  constructor
  · intro ctx tok fuel st start en entry hc
    unfold parse_link_label
    rw [hc]
  · intro env k v
    constructor
    · simp [cacheInsert, List.count_cons, count_erase_key]
    · simp [cacheRemoveEnv, count_erase_key]

def c3_st : MState := ⟨0, .node .root [], ⟨false, [(0, some ([], 7))], []⟩⟩

theorem c3_witness :
    (parse_link_label c1_ctx (tokenize_one c1_ctx 5) 5 c3_st 0 true = (some 7, c3_st)) ∧
    (((cacheInsert ⟨false, [], []⟩ 4 none).cache.map (·.1)).count 4 = 1) :=
  ⟨c3_amended_cache_behavior.1 c1_ctx (tokenize_one c1_ctx 5) 5 c3_st 0 true (some ([], 7)) rfl,
   (c3_amended_cache_behavior.2 ⟨false, [], []⟩ 4 none).1⟩

/-! ### C4 -/

/-- C4 (amended): when the parsed destination's normalized URL is rejected by
`validate_link`, href is kept unset and the cursor is not advanced past the
rejected destination — the whitespace skip and the title attempt resume from
the original position `p`.  (Because the cursor then points at the start of
the rejected destination rather than at `)`, the final `)` check of the
inline form fails and `parse_link` falls through to the reference form; see
the counterexample.) -/
theorem c4_rejected_destination_keeps_cursor (md : Md) (src : List Char) (p max : Nat)
    (res : ParseLinkFragmentResult)
    (hd : parse_link_destination src p max = some res)
    (hv : md.validate_link (md.normalize_link res.str) = false) :
    inline_href_title md src p max =
      (match parse_link_title src (skipWs src max p) max with
       | some r2 => (skipWs src max r2.pos, none, some r2.str)
       | none => (skipWs src max p, none, none)) := by
  unfold inline_href_title
  rw [hd]
  simp [hv]

def c4_ctx : Ctx := ⟨"[a](javascript:x)".data, 17, default_md, none⟩

def c4_st : MState := ⟨0, .node .root [], ⟨false, [], []⟩⟩

/-- C4 (counterexample): for `[a](javascript:x)` — rejected destination, the
closing `)` present in the text — `parse_link` does NOT commit an inline node
with absent href: it returns no result at all (the reference form also fails
as there is no reference map), and the whole input is emitted as plain text. -/
theorem c4_counterexample :
    (parse_link c4_ctx (tokenize_one c4_ctx 40) 40 c4_st 0 false).1 = none ∧
    (parse_inline 60 "[a](javascript:x)".data none).all Node.isText = true := by
  exact ⟨rfl, rfl⟩

theorem c4_witness :
    inline_href_title default_md "javascript:x)".data 0 13 = (0, none, none) :=
  c4_rejected_destination_keeps_cursor default_md "javascript:x)".data 0 13
    ⟨12, 0, "javascript:x".data⟩ rfl rfl

/-! ### C6 -/

/-- C6: reference-form resolution.  (1) For `[a][b]` with a second label
present and nonempty, the lookup uses the second label: on a hit the result
carries that reference's destination and title together with the first
label's cached children, ending after the second label (whether or not the
first label is also defined is irrelevant: no hypothesis constrains it).
(2) When the second label is absent (shortcut) or empty (collapsed), the
effective label is the first label `src[label_start..label_end]`.
(3) With no reference map in the document, the reference form returns none. -/
theorem c6_reference_resolution :
    (∀ (ctx : Ctx) (tok : MState → Bool × MState) (fuel : Nat) (st : MState)
       (labelStart labelEnd x : Nat) (st2 : MState) (refs : RefMap) (r : RefItem)
       (kids : List Node) (e : Nat),
       headSlice ctx.src (labelEnd + 1) ctx.posMax = some '[' →
       parse_link_label ctx tok fuel st (labelEnd + 1) false = (some x, st2) →
       byteSlice ctx.src (labelEnd + 2) x ≠ [] →
       ctx.refs = some refs →
       ref_get refs (byteSlice ctx.src (labelEnd + 2) x) = some r →
       cacheGet st2.env (labelStart - 1) = some (some (kids, e)) →
       reference_form ctx tok fuel st labelStart labelEnd =
         (some ⟨kids, some r.destination, r.title, x + 1⟩,
          { st2 with env := cacheRemoveEnv st2.env (labelStart - 1) })) ∧
    (∀ (ctx : Ctx) (st : MState) (labelStart labelEnd : Nat) (ml : Option (List Char))
       (p : Nat) (refs : RefMap) (r : RefItem) (kids : List Node) (e : Nat),
       (ml = none ∨ ml = some []) →
       ctx.refs = some refs →
       ref_get refs (byteSlice ctx.src labelStart labelEnd) = some r →
       cacheGet st.env (labelStart - 1) = some (some (kids, e)) →
       finish_ref ctx st labelStart labelEnd ml p =
         (some ⟨kids, some r.destination, r.title, p⟩,
          { st with env := cacheRemoveEnv st.env (labelStart - 1) })) ∧
    (∀ (ctx : Ctx) (tok : MState → Bool × MState) (fuel : Nat) (st : MState)
       (labelStart labelEnd : Nat),
       ctx.refs = none →
       (reference_form ctx tok fuel st labelStart labelEnd).1 = none) := by
  refine ⟨?_, ?_, ?_⟩
  · intro ctx tok fuel st labelStart labelEnd x st2 refs r kids e hp hl hne hrefs hget hcache
    unfold reference_form
    rw [hp, hl]
    unfold finish_ref
    rw [hrefs]
    have hml : ¬ ((some (byteSlice ctx.src (labelEnd + 2) x) : Option (List Char)) = none ∨
        (some (byteSlice ctx.src (labelEnd + 2) x) : Option (List Char)) = some []) := by
      simp [hne]
    dsimp only
    rw [if_neg hml]
    simp [hget, hcache, entry_kids]
  · intro ctx st labelStart labelEnd ml p refs r kids e hml hrefs hget hcache
    unfold finish_ref
    rw [hrefs]
    dsimp only
    rw [if_pos hml]
    simp [hget, hcache, entry_kids]
  · intro ctx tok fuel st labelStart labelEnd hrefs
    unfold reference_form
    split
    · split
      · rename_i x st2 hx
        simp [finish_ref, hrefs]
      · rename_i st2 hx
        simp [finish_ref, hrefs]
    · simp [finish_ref, hrefs]

def c6_refs : RefMap := [("b".data, ⟨"/x".data, some "y".data⟩)]

def c6_ctx : Ctx := ⟨"[a][b]".data, 6, default_md, some c6_refs⟩

def c6_st : MState :=
  ⟨0, .node .root [], ⟨false, [(0, some ([Node.node (.text "a".data) []], 2))], [0]⟩⟩

theorem c6_witness :
    reference_form c6_ctx (tokenize_one c6_ctx 20) 20 c6_st 1 2 =
      (some ⟨[Node.node (.text "a".data) []], some "/x".data, some "y".data, 6⟩,
       ⟨0, Node.node .root [],
        ⟨false, [(3, some ([Node.node (.text "b".data) []], 5))], [3, 0]⟩⟩) :=
  c6_reference_resolution.1 c6_ctx (tokenize_one c6_ctx 20) 20 c6_st 1 2 5
    ⟨0, Node.node .root [],
     ⟨false, [(3, some ([Node.node (.text "b".data) []], 5)),
              (0, some ([Node.node (.text "a".data) []], 2))], [3, 0]⟩⟩
    c6_refs ⟨"/x".data, some "y".data⟩ [Node.node (.text "a".data) []] 2
    rfl rfl (by decide) rfl rfl rfl

/-! ### C10 -/

/-- C10: when the text between `<` and the next `>` matches the autolink or
email pattern but the resulting full URL fails `validate_link`, `get_link`
returns none, `AutolinkScanner::run` returns none without touching the state,
and `AutolinkScanner::check` returns none, leaving the chars to the text
fallback. -/
theorem c10_autolink_rejected_url (ctx : Ctx) (st : MState) (p : Nat)
    (hs : scan_angle ctx.src st.pos ctx.posMax = some p)
    (hm : (is_autolink_url (byteSlice ctx.src (st.pos + 1) (p - 1)) ||
           is_email_url (byteSlice ctx.src (st.pos + 1) (p - 1))) = true)
    (hv : ctx.md.validate_link (full_url_of ctx.md (byteSlice ctx.src (st.pos + 1) (p - 1))) = false) :
    get_link ctx.md ctx.src st.pos ctx.posMax = none ∧
    autolink_run ctx st = (none, st) ∧
    autolink_check ctx st = none := by
  have hg : get_link ctx.md ctx.src st.pos ctx.posMax = none := by
    unfold get_link
    rw [hs]
    simp only [Bool.or_eq_true] at hm
    rcases hm with ha | hb
    · simp [ha, hv]
    · simp [hb, hv]
  exact ⟨hg, by simp [autolink_run, hg], by simp [autolink_check, hg]⟩

def c10_ctx : Ctx := ⟨"<javascript:alert(1)>".data, 21, default_md, none⟩

def c10_st : MState := ⟨0, .node .root [], ⟨false, [], []⟩⟩

theorem c10_witness :
    get_link default_md "<javascript:alert(1)>".data 0 21 = none ∧
    autolink_run c10_ctx c10_st = (none, c10_st) ∧
    autolink_check c10_ctx c10_st = none :=
  c10_autolink_rejected_url c10_ctx c10_st 21 rfl rfl rfl

/-! ### C7 -/

lemma dest_bare_cons (c : Char) (rest : List Char) (pos level : Nat) :
    dest_bare (c :: rest) pos level =
      if c.toNat ≤ 32 ∨ c.toNat = 127 then (if level ≠ 0 then none else some pos)
      else if c = '\\' then
        (match rest with
         | [] => if level ≠ 0 then none else some pos
         | x :: rest' =>
           if x = ' ' then (if level ≠ 0 then none else some pos)
           else dest_bare rest' (pos + 1 + x.utf8Size) level)
      else if c = '(' then (if level + 1 > 32 then none else dest_bare rest (pos + 1) (level + 1))
      else if c = ')' then (if level = 0 then some pos else dest_bare rest (pos + 1) (level - 1))
      else dest_bare rest (pos + c.utf8Size) level := by
  cases rest <;> rfl

lemma dest_bare_cap (k : Nat) :
    ∀ (rest : List Char) (pos level : Nat), level ≤ 32 → 33 ≤ level + k →
      dest_bare (List.replicate k '(' ++ rest) pos level = none := by
  induction k with
  | zero => intro rest pos level h1 h2; omega
  | succ k ih =>
    intro rest pos level h1 h2
    rw [List.replicate_succ, List.cons_append]
    simp only [dest_bare_cons]
    norm_num
    by_cases hlev : 32 < level + 1
    · simp [hlev]
    · rw [if_neg hlev]
      exact ih rest (pos + 1) (level + 1) (by omega) (by omega)

lemma dest_bare_unclosed (n : Nat) :
    ∀ (pos level : Nat), level ≠ 0 → dest_bare (List.replicate n 'a') pos level = none := by
  induction n with
  | zero => intro pos level h; simp [dest_bare, h]
  | succ n ih =>
    intro pos level h
    rw [List.replicate_succ]
    simp only [dest_bare_cons]
    norm_num
    exact ih _ _ h

/-- C7: behaviour of `parse_link_destination` on bare (non-angle-bracketed)
URLs.  (1) Any success has `lines = 0` and `str = unescape_all` of the
consumed byte slice.  (2) 33 nested `(` exceed the hard cap of 32 and give
none, whatever follows.  (3) An unmatched `)` terminates the scan cleanly
(success, nothing consumed at that point).  (4) An unclosed `(` leaves
`level ≠ 0` at end of input, giving none.  (5) A backslash escapes the next
non-space byte (both are consumed).  (6) A backslash before a space stops the
scan like a space.  (7) A space or any ASCII control char (≤ 0x1F or 0x7F)
stops the scan, successfully iff the nesting level is zero.  (8) End of input
stops the scan the same way. -/
theorem c7_destination_bare :
    (∀ (src : List Char) (start max : Nat) (r : ParseLinkFragmentResult),
       headSlice src start max ≠ some '<' →
       parse_link_destination src start max = some r →
       r.lines = 0 ∧ r.str = unescape_all (byteSlice src start r.pos)) ∧
    (∀ (rest : List Char),
       parse_link_destination (List.replicate 33 '(' ++ rest) 0
         (utf8Len (List.replicate 33 '(' ++ rest)) = none) ∧
    (∀ (src : List Char) (start max : Nat),
       headSlice src start max = some ')' →
       parse_link_destination src start max = some ⟨start, 0, []⟩) ∧
    (∀ (n : Nat),
       parse_link_destination ('(' :: List.replicate n 'a') 0
         (utf8Len ('(' :: List.replicate n 'a')) = none) ∧
    (∀ (x : Char) (rest : List Char) (pos level : Nat), x ≠ ' ' →
       dest_bare ('\\' :: x :: rest) pos level = dest_bare rest (pos + 1 + x.utf8Size) level) ∧
    (∀ (rest : List Char) (pos level : Nat),
       dest_bare ('\\' :: ' ' :: rest) pos level = (if level ≠ 0 then none else some pos)) ∧
    (∀ (c : Char) (rest : List Char) (pos level : Nat), (c.toNat ≤ 32 ∨ c.toNat = 127) →
       dest_bare (c :: rest) pos level = (if level ≠ 0 then none else some pos)) ∧
    (∀ (pos level : Nat),
       dest_bare [] pos level = (if level ≠ 0 then none else some pos)) := by
  refine ⟨?_, ?_, ?_, ?_, ?_, ?_, ?_, ?_⟩
  · intro src start max r hlt hr
    unfold parse_link_destination at hr
    split at hr
    · rename_i rest hbs
      exact absurd (by rw [headSlice, hbs]; rfl) hlt
    · split at hr
      · rename_i p hd
        cases hr
        exact ⟨rfl, rfl⟩
      · exact absurd hr (by simp)
  · intro rest
    unfold parse_link_destination
    rw [byteSlice_full]
    split
    · rename_i rest' heq
      rw [List.replicate_succ, List.cons_append] at heq
      simp at heq
    · rw [dest_bare_cap 33 rest 0 0 (by omega) (by omega)]
  · intro src start max h
    rcases hbs : byteSlice src start max with _ | ⟨c, rest⟩
    · rw [headSlice, hbs] at h; simp at h
    · rw [headSlice, hbs] at h
      simp only [List.head?] at h
      cases h
      unfold parse_link_destination
      rw [hbs]
      have hd : dest_bare (')' :: rest) start 0 = some start := by simp [dest_bare_cons]
      split
      · rename_i rest' heq
        simp at heq
      · split
        · rename_i p hp
          rw [hd] at hp
          cases hp
          rw [byteSlice_self]
          rfl
        · rename_i hp
          rw [hd] at hp
          cases hp
  · intro n
    unfold parse_link_destination
    rw [byteSlice_full]
    have hd : dest_bare ('(' :: List.replicate n 'a') 0 0 = none := by
      simp only [dest_bare_cons]
      norm_num
      exact dest_bare_unclosed n 1 1 (by omega)
    split
    · rename_i rest' heq
      simp at heq
    · split
      · rename_i p hp
        rw [hd] at hp
        cases hp
      · rfl
  · intro x rest pos level hx
    simp [dest_bare, hx]
  · intro rest pos level
    simp [dest_bare]
  · intro c rest pos level h
    rw [dest_bare_cons, if_pos h]
  · intro pos level
    rfl

theorem c7_witness :
    (parse_link_destination (List.replicate 33 '(' ++ "x".data) 0
       (utf8Len (List.replicate 33 '(' ++ "x".data)) = none) ∧
    (parse_link_destination ")a".data 0 2 = some ⟨0, 0, []⟩) ∧
    (parse_link_destination ('(' :: List.replicate 2 'a') 0
       (utf8Len ('(' :: List.replicate 2 'a')) = none) ∧
    (dest_bare ('\\' :: 'b' :: []) 5 0 = dest_bare [] 7 0) :=
  ⟨c7_destination_bare.2.1 "x".data,
   c7_destination_bare.2.2.1 ")a".data 0 2 rfl,
   c7_destination_bare.2.2.2.1 2,
   c7_destination_bare.2.2.2.2.1 'b' [] 5 0 (by decide)⟩

/-! ### C8 -/

lemma title_loop_cons (str : List Char) (start : Nat) (marker c : Char) (rest : List Char)
    (pos lines : Nat) :
    title_loop str start marker (c :: rest) pos lines =
      if c = marker then some ⟨pos + 1, lines, unescape_all (byteSlice str (start + 1) pos)⟩
      else if c = '(' ∧ marker = ')' then none
      else if c = '\n' then title_loop str start marker rest (pos + 1) (lines + 1)
      else if c = '\\' then
        (match rest with
         | [] => none
         | x :: rest' => title_loop str start marker rest' (pos + 1 + x.utf8Size) lines)
      else title_loop str start marker rest (pos + c.utf8Size) lines := by
  cases rest <;> rfl

/-- Number of newlines in a title interior as `parse_link_title` counts them
(an escaped pair is skipped whole, so an escaped newline is not counted). -/
def nl_count : List Char → Nat
  | [] => 0
  | c :: t =>
    if c = '\\' then (match t with | [] => 0 | _ :: t' => nl_count t')
    else if c = '\n' then 1 + nl_count t
    else nl_count t

lemma nl_count_cons (c : Char) (t : List Char) :
    nl_count (c :: t) =
      if c = '\\' then (match t with | [] => 0 | _ :: t' => nl_count t')
      else if c = '\n' then 1 + nl_count t
      else nl_count t := by
  cases t <;> rfl

lemma title_loop_success (str : List Char) (start : Nat) (marker : Char) :
    ∀ (n : Nat) (cs : List Char), cs.length ≤ n → ∀ (pos lines : Nat) (r : ParseLinkFragmentResult),
      title_loop str start marker cs pos lines = some r →
      ∃ pre post, cs = pre ++ marker :: post ∧
        r.pos = pos + utf8Len pre + 1 ∧
        r.lines = lines + nl_count pre ∧
        r.str = unescape_all (byteSlice str (start + 1) (pos + utf8Len pre)) := by
  intro n
  induction n with
  | zero =>
    intro cs hlen pos lines r h
    have : cs = [] := List.length_eq_zero.mp (Nat.le_zero.mp hlen)
    subst this
    exact absurd h (by simp [title_loop])
  | succ n ih =>
    intro cs hlen pos lines r h
    match cs, hlen with
    | [], _ => exact absurd h (by simp [title_loop])
    | c :: rest, hlen =>
      rw [title_loop_cons] at h
      by_cases h1 : c = marker
      · rw [if_pos h1] at h
        cases h
        refine ⟨[], rest, by simp [h1], ?_, ?_, ?_⟩
        · simp [utf8Len]
        · simp [nl_count]
        · simp [utf8Len]
      · rw [if_neg h1] at h
        by_cases h2 : c = '(' ∧ marker = ')'
        · rw [if_pos h2] at h
          exact absurd h (by simp)
        · rw [if_neg h2] at h
          by_cases h3 : c = '\n'
          · rw [if_pos h3] at h
            obtain ⟨pre, post, hcs, hp, hl, hs⟩ :=
              ih rest (by simp at hlen; omega) (pos + 1) (lines + 1) r h
            have hsz : utf8Len (c :: pre) = 1 + utf8Len pre := by
              have h5 : ('\n' : Char).utf8Size = 1 := by decide
              subst h3; simp [utf8Len, h5]
            refine ⟨c :: pre, post, by rw [List.cons_append, hcs], ?_, ?_, ?_⟩
            · rw [hp, hsz]; omega
            · rw [hl, nl_count_cons, if_neg (by subst h3; decide), if_pos h3]; omega
            · rw [hs]
              congr 2
              rw [hsz]; omega
          · rw [if_neg h3] at h
            by_cases h4 : c = '\\'
            · rw [if_pos h4] at h
              cases rest with
              | nil => exact absurd h (by simp)
              | cons x rest' =>
                obtain ⟨pre, post, hcs, hp, hl, hs⟩ :=
                  ih rest' (by simp at hlen; omega) (pos + 1 + x.utf8Size) lines r h
                have hsz : utf8Len (c :: x :: pre) = 1 + x.utf8Size + utf8Len pre := by
                  have h5 : ('\\' : Char).utf8Size = 1 := by decide
                  subst h4; simp [utf8Len, h5]; omega
                refine ⟨c :: x :: pre, post,
                  by rw [List.cons_append, List.cons_append, hcs], ?_, ?_, ?_⟩
                · rw [hp, hsz]; omega
                · rw [hl, nl_count_cons, if_pos h4]
                · rw [hs]
                  congr 2
                  rw [hsz]; omega
            · rw [if_neg h4] at h
              obtain ⟨pre, post, hcs, hp, hl, hs⟩ :=
                ih rest (by simp at hlen; omega) (pos + c.utf8Size) lines r h
              have hsz : utf8Len (c :: pre) = c.utf8Size + utf8Len pre := by simp [utf8Len]
              refine ⟨c :: pre, post, by rw [List.cons_append, hcs], ?_, ?_, ?_⟩
              · rw [hp, hsz]; omega
              · rw [hl, nl_count_cons, if_neg h4, if_neg h3]
              · rw [hs]
                congr 2
                rw [hsz]; omega

lemma marker_of_cases (c marker : Char) (h : marker_of c = some marker) :
    marker = '"' ∨ marker = '\'' ∨ marker = ')' := by
  unfold marker_of at h
  split at h
  · cases h; left; rfl
  · split at h
    · cases h; right; left; rfl
    · split at h
      · cases h; right; right; rfl
      · cases h

/-- C8: behaviour of `parse_link_title`.  (1) The starting char selects the
closing marker (`"`→`"`, `'`→`'`, `(`→`)`), any other char gives none, and so
does end of input.  (2) On success there is a decomposition of the interior
before an unescaped close: `pos` points one past the closing marker,
`lines` counts the unescaped newlines of the interior, and `str` is
`unescape_all` of the interior byte slice.  (3) With marker `)`, an unescaped
`(` inside fails.  (4) A backslash must be followed by a byte: a trailing
backslash (no close) fails. -/
theorem c8_title_behavior :
    (marker_of '"' = some '"' ∧ marker_of '\'' = some '\'' ∧ marker_of '(' = some ')' ∧
     (∀ c, c ≠ '"' → c ≠ '\'' → c ≠ '(' → marker_of c = none) ∧
     (∀ (src : List Char) (start max : Nat),
        byteSlice src start max = [] → parse_link_title src start max = none) ∧
     (∀ (src : List Char) (start max : Nat) (c : Char) (rest : List Char),
        byteSlice src start max = c :: rest → marker_of c = none →
        parse_link_title src start max = none)) ∧
    (∀ (src : List Char) (start max : Nat) (c : Char) (rest : List Char) (marker : Char)
       (r : ParseLinkFragmentResult),
       byteSlice src start max = c :: rest → marker_of c = some marker →
       parse_link_title src start max = some r →
       ∃ pre post, rest = pre ++ marker :: post ∧
         r.pos = start + 1 + utf8Len pre + 1 ∧
         r.lines = nl_count pre ∧
         r.str = unescape_all (byteSlice src (start + 1) (start + 1 + utf8Len pre))) ∧
    (∀ (src : List Char) (start : Nat) (pre rest : List Char) (pos lines : Nat),
       (∀ a ∈ pre, a = 'a') →
       title_loop src start ')' (pre ++ '(' :: rest) pos lines = none) ∧
    (∀ (src : List Char) (start : Nat) (marker : Char) (pre : List Char) (pos lines : Nat),
       (marker = '"' ∨ marker = '\'' ∨ marker = ')') →
       (∀ a ∈ pre, a = 'a') →
       title_loop src start marker (pre ++ ['\\']) pos lines = none) := by
  refine ⟨⟨rfl, rfl, rfl, ?_, ?_, ?_⟩, ?_, ?_, ?_⟩
  · intro c h1 h2 h3
    simp [marker_of, h1, h2, h3]
  · intro src start max h
    unfold parse_link_title
    rw [h]
  · intro src start max c rest h hm
    unfold parse_link_title
    rw [h]
    simp [hm]
  · intro src start max c rest marker r hbs hm ht
    unfold parse_link_title at ht
    rw [hbs] at ht
    simp only [hm] at ht
    obtain ⟨pre, post, hcs, hp, hl, hs⟩ :=
      title_loop_success src start marker rest.length rest le_rfl (start + 1) 0 r ht
    exact ⟨pre, post, hcs, by omega, by omega, hs⟩
  · intro src start pre rest pos lines hpre
    induction pre generalizing pos lines with
    | nil =>
      rw [List.nil_append, title_loop_cons]
      simp
    | cons a pre' ih =>
      have ha : a = 'a' := hpre a (by simp)
      rw [List.cons_append, title_loop_cons, ha]
      simp only [if_neg (by decide : ¬ ('a' : Char) = ')'),
        if_neg (by decide : ¬ (('a' : Char) = '(' ∧ (')' : Char) = ')')),
        if_neg (by decide : ¬ ('a' : Char) = '\n'),
        if_neg (by decide : ¬ ('a' : Char) = '\\')]
      exact ih _ _ (fun b hb => hpre b (List.mem_cons_of_mem a hb))
  · intro src start marker pre pos lines hm hpre
    induction pre generalizing pos lines with
    | nil =>
      rw [List.nil_append, title_loop_cons]
      have h1 : ¬ ('\\' : Char) = marker := by rcases hm with h | h | h <;> subst h <;> decide
      rw [if_neg h1, if_neg (by simp : ¬ (('\\' : Char) = '(' ∧ marker = ')')),
        if_neg (by decide : ¬ ('\\' : Char) = '\n'), if_pos rfl]
    | cons a pre' ih =>
      have ha : a = 'a' := hpre a (by simp)
      have h1 : ¬ ('a' : Char) = marker := by rcases hm with h | h | h <;> subst h <;> decide
      rw [List.cons_append, title_loop_cons, ha]
      rw [if_neg h1, if_neg (by simp +decide : ¬ (('a' : Char) = '(' ∧ marker = ')')),
        if_neg (by decide : ¬ ('a' : Char) = '\n'), if_neg (by decide : ¬ ('a' : Char) = '\\')]
      exact ih _ _ (fun b hb => hpre b (List.mem_cons_of_mem a hb))

theorem c8_witness :
    (marker_of 'x' = none) ∧
    (parse_link_title "x".data 0 1 = none) ∧
    (title_loop "(a(b".data 0 ')' ('a' :: '(' :: 'b' :: []) 1 0 = none) ∧
    (title_loop "\"a\\".data 0 '"' ('a' :: '\\' :: []) 1 0 = none) :=
  ⟨c8_title_behavior.1.2.2.2.1 'x' (by decide) (by decide) (by decide),
   c8_title_behavior.1.2.2.2.2.2 "x".data 0 1 'x' [] rfl
     (c8_title_behavior.1.2.2.2.1 'x' (by decide) (by decide) (by decide)),
   c8_title_behavior.2.2.1 "(a(b".data 0 ['a'] ['b'] 1 0 (by intro a ha; simpa using ha),
   c8_title_behavior.2.2.2 "\"a\\".data 0 '"' ['a'] 1 0 (by left; rfl)
     (by intro a ha; simpa using ha)⟩

/-! ### C5 -/

def all_text (ns : List Node) : Bool := ns.all Node.isText

/-- Invariant of the scan environment: every `Some` cache entry stores
text-only children (no committed link among them). -/
def EnvInv (env : InlineEnv) : Prop :=
  ∀ (k : Nat) (kids : List Node) (e : Nat),
    cacheGet env k = some (some (kids, e)) → all_text kids = true

/-- What one tokenizer step preserves: the cache invariant, and — when no
link was committed (the `SeenLinks` flag stayed clear) — text-only output. -/
def TokPreserve (t : MState → Bool × MState) : Prop :=
  ∀ (st : MState) (b : Bool) (st' : MState), t st = (b, st') →
    (EnvInv st.env → EnvInv st'.env) ∧
    (EnvInv st.env → st.env.seenLinks = false → all_text st.node.children = true →
      st'.env.seenLinks = false → all_text st'.node.children = true)

lemma envInv_cache_congr (env env' : InlineEnv) (h : env'.cache = env.cache)
    (hi : EnvInv env) : EnvInv env' := by
  intro k kids e hg
  rw [cacheGet, h] at hg
  exact hi k kids e hg

lemma envInv_insert (env : InlineEnv) (k : Nat) (v : Option (List Node × Nat))
    (h : EnvInv env) (hv : ∀ kids e, v = some (kids, e) → all_text kids = true) :
    EnvInv (cacheInsert env k v) := by
  intro k' kids e hg
  by_cases hk : k' = k
  · subst hk
    rw [cacheGet_insert_self] at hg
    cases hg
    exact hv kids e rfl
  · rw [cacheGet_insert_ne _ _ _ _ hk] at hg
    exact h k' kids e hg

lemma envInv_remove (env : InlineEnv) (k : Nat) (h : EnvInv env) :
    EnvInv (cacheRemoveEnv env k) := by
  intro k' kids e hg
  rw [cacheGet_remove] at hg
  by_cases hk : k' = k
  · simp [hk] at hg
  · rw [if_neg hk] at hg
    exact h _ _ _ hg

lemma text_append_cons2 (n m : Node) (rest : List Node) (ch : Char) :
    text_append (n :: m :: rest) ch = n :: text_append (m :: rest) ch := by
  cases n with
  | node k cs => cases k <;> rfl

lemma all_text_text_append (l : List Node) (ch : Char) (h : all_text l = true) :
    all_text (text_append l ch) = true := by
  induction l with
  | nil => rfl
  | cons n rest ih =>
    cases rest with
    | nil =>
      cases n with
      | node k cs =>
        cases k with
        | text s => rfl
        | root => simp [all_text, Node.isText] at h
        | link a b => simp [all_text, Node.isText] at h
        | autolink u => simp [all_text, Node.isText] at h
    | cons m rest' =>
      rw [text_append_cons2]
      simp only [all_text, List.all_cons, Bool.and_eq_true] at h ⊢
      refine ⟨h.1, ?_⟩
      have h2 : all_text (m :: rest') = true := by
        simp only [all_text, List.all_cons, Bool.and_eq_true]
        exact h.2
      have := ih h2
      simpa [all_text, List.all_cons, Bool.and_eq_true] using this

lemma label_loop_succ (ctx : Ctx) (tok : MState → Bool × MState) (en : Bool) (fuel : Nat)
    (st : MState) (level : Nat) :
    label_loop ctx tok en (fuel + 1) st level =
      match headSlice ctx.src st.pos ctx.posMax with
      | none => (false, st)
      | some ch =>
        if ch = ']' ∧ (if ch = ']' then level - 1 else level) = 0 then (true, st)
        else
          if en = false ∧ (tok st).2.env.seenLinks = true then (false, (tok st).2)
          else label_loop ctx tok en fuel (tok st).2
            (if (tok st).1 = false ∧ ch = '[' then (if ch = ']' then level - 1 else level) + 1
             else (if ch = ']' then level - 1 else level)) := by
  rfl

lemma label_loop_inv (ctx : Ctx) (tok : MState → Bool × MState) (ht : TokPreserve tok) :
    ∀ (fuel : Nat) (st : MState) (level : Nat) (fnd : Bool) (st' : MState),
      label_loop ctx tok false fuel st level = (fnd, st') →
      EnvInv st.env → st.env.seenLinks = false → all_text st.node.children = true →
      EnvInv st'.env ∧
      (st'.env.seenLinks = false → all_text st'.node.children = true) ∧
      (fnd = true → st'.env.seenLinks = false) := by
  intro fuel
  induction fuel with
  | zero =>
    intro st level fnd st' h h1 h2 h3
    cases h
    exact ⟨h1, fun _ => h3, by simp [h2]⟩
  | succ fuel ih =>
    intro st level fnd st' h h1 h2 h3
    rw [label_loop_succ] at h
    rcases hhs : headSlice ctx.src st.pos ctx.posMax with _ | ch
    · rw [hhs] at h
      cases h
      exact ⟨h1, fun _ => h3, by simp [h2]⟩
    · rw [hhs] at h
      dsimp only at h
      by_cases hcond : ch = ']' ∧ (if ch = ']' then level - 1 else level) = 0
      · rw [if_pos hcond] at h
        cases h
        exact ⟨h1, fun _ => h3, fun _ => h2⟩
      · rw [if_neg hcond] at h
        rcases htok : tok st with ⟨tb, ts⟩
        rw [htok] at h
        dsimp only at h
        have hts := ht st tb ts htok
        by_cases hseen : ts.env.seenLinks = true
        · rw [if_pos ⟨rfl, hseen⟩] at h
          cases h
          refine ⟨hts.1 h1, ?_, by simp⟩
          intro hsf
          simp [hsf] at hseen
        · rw [if_neg (fun hcon => hseen hcon.2)] at h
          have hseenf : ts.env.seenLinks = false := by
            cases hx : ts.env.seenLinks with
            | false => rfl
            | true => exact absurd hx hseen
          exact ih _ _ _ _ h (hts.1 h1) hseenf (hts.2 h1 h2 h3 hseenf)

lemma parse_link_label_inv (ctx : Ctx) (tok : MState → Bool × MState) (ht : TokPreserve tok)
    (fuel : Nat) (st : MState) (start : Nat) (r : Option Nat) (st' : MState)
    (h : parse_link_label ctx tok fuel st start false = (r, st'))
    (h1 : EnvInv st.env) :
    EnvInv st'.env ∧ (∀ e, r = some e → ∃ kids, cacheGet st'.env start = some (some (kids, e))) := by
  unfold parse_link_label at h
  split at h
  · rename_i entry hc
    cases h
    refine ⟨h1, ?_⟩
    intro e he
    cases entry with
    | none => simp at he
    | some v =>
      obtain ⟨k1, k2⟩ := v
      have he' : some k2 = some e := he
      cases he'
      exact ⟨k1, by rw [hc]⟩
  · rename_i hc
    dsimp only at h
    rcases hloop : label_loop ctx tok false fuel
        ⟨start + 1, Node.node NodeKind.root [],
         ⟨false, st.env.cache, start :: st.env.labelScans⟩⟩ 1 with ⟨found, st1⟩
    rw [hloop] at h
    dsimp only at h
    have hscanInv : EnvInv (⟨false, st.env.cache, start :: st.env.labelScans⟩ : InlineEnv) :=
      envInv_cache_congr st.env _ rfl h1
    have hscan := label_loop_inv ctx tok ht fuel _ 1 found st1 hloop hscanInv rfl rfl
    cases found with
    | true =>
      simp only [eq_self_iff_true, if_true] at h
      cases h
      constructor
      · exact envInv_cache_congr _ _ rfl
          (envInv_insert st1.env start _ hscan.1
            (fun kids e hv => by cases hv; exact hscan.2.1 (hscan.2.2 rfl)))
      · intro e he
        cases he
        exact ⟨st1.node.children,
          cacheGet_insert_self st1.env start (some (st1.node.children, st1.pos))⟩
    | false =>
      simp only [Bool.false_eq_true, if_false] at h
      cases h
      refine ⟨?_, by simp⟩
      exact envInv_cache_congr _ _ rfl
        (envInv_insert st1.env start none hscan.1 (fun kids e hv => by cases hv))

lemma finish_ref_inv (ctx : Ctx) (st : MState) (a b : Nat) (ml : Option (List Char)) (p : Nat)
    (r : Option ParseLinkResult) (st' : MState)
    (h : finish_ref ctx st a b ml p = (r, st')) (h1 : EnvInv st.env) : EnvInv st'.env := by
  unfold finish_ref at h
  split at h
  · cases h
    exact envInv_remove _ _ h1
  · cases h
    exact h1

lemma reference_form_inv (ctx : Ctx) (tok : MState → Bool × MState) (ht : TokPreserve tok)
    (fuel : Nat) (st : MState) (a b : Nat) (r : Option ParseLinkResult) (st' : MState)
    (h : reference_form ctx tok fuel st a b = (r, st')) (h1 : EnvInv st.env) : EnvInv st'.env := by
  unfold reference_form at h
  split at h
  · split at h
    · rename_i x st2 hx
      exact finish_ref_inv _ _ _ _ _ _ _ _ h
        ((parse_link_label_inv ctx tok ht fuel st (b + 1) _ _ hx h1).1)
    · rename_i st2 hx
      exact finish_ref_inv _ _ _ _ _ _ _ _ h
        ((parse_link_label_inv ctx tok ht fuel st (b + 1) _ _ hx h1).1)
  · exact finish_ref_inv _ _ _ _ _ _ _ _ h h1

lemma parse_link_inv (ctx : Ctx) (tok : MState → Bool × MState) (ht : TokPreserve tok)
    (fuel : Nat) (st : MState) (pos : Nat) (r : Option ParseLinkResult) (st' : MState)
    (h : parse_link ctx tok fuel st pos false = (r, st')) (h1 : EnvInv st.env) : EnvInv st'.env := by
  unfold parse_link at h
  split at h
  · rename_i st1 hl
    cases h
    exact (parse_link_label_inv ctx tok ht fuel st pos _ _ hl h1).1
  · rename_i labelEnd st1 hl
    have h2 := (parse_link_label_inv ctx tok ht fuel st pos _ _ hl h1).1
    simp only at h
    split at h
    · split at h
      · cases h
        exact envInv_remove _ _ h2
      · exact reference_form_inv ctx tok ht fuel st1 _ _ _ _ h h2
    · exact reference_form_inv ctx tok ht fuel st1 _ _ _ _ h h2

lemma rule_inv (ctx : Ctx) (tok : MState → Bool × MState) (ht : TokPreserve tok)
    (fuel : Nat) (st : MState) (off : Nat)
    (f : Option (List Char) → Option (List Char) → Node) (r : Option Nat) (st' : MState)
    (h : rule ctx tok fuel st false off f = (r, st')) (h1 : EnvInv st.env) : EnvInv st'.env := by
  unfold rule at h
  split at h
  · rename_i result st2 hp
    cases h
    exact envInv_cache_congr _ _ (by simp) (parse_link_inv ctx tok ht fuel st _ _ _ hp h1)
  · rename_i st2 hp
    cases h
    exact parse_link_inv ctx tok ht fuel st _ _ _ hp h1

lemma rule_sets_seen (ctx : Ctx) (tok : MState → Bool × MState) (fuel : Nat) (st : MState)
    (off : Nat) (f : Option (List Char) → Option (List Char) → Node) (n : Nat) (st' : MState)
    (h : rule ctx tok fuel st false off f = (some n, st')) : st'.env.seenLinks = true := by
  unfold rule at h
  split at h
  · cases h; rfl
  · simp at h

lemma tok_step_tokPreserve (ctx : Ctx) (fuel : Nat) (tok : MState → Bool × MState)
    (ht : TokPreserve tok) : TokPreserve (tok_step ctx tok fuel) := by
  intro st b st' h
  unfold tok_step at h
  split at h
  · cases h
    exact ⟨id, fun _ _ h3 _ => h3⟩
  · rename_i ch hch
    split at h
    · split at h
      · rename_i n st2 hr
        cases h
        constructor
        · exact fun h1 => rule_inv ctx tok ht fuel st 0 link_factory (some n) st2 hr h1
        · intro _ _ _ hsf
          have htrue := rule_sets_seen ctx tok fuel st 0 link_factory n st2 hr
          rw [show ({ st2 with pos := st2.pos + n } : MState).env = st2.env from rfl] at hsf
          rw [hsf] at htrue
          exact absurd htrue (by decide)
      · rename_i st2 hr
        cases h
        constructor
        · exact fun h1 => rule_inv ctx tok ht fuel st 0 link_factory none st2 hr h1
        · intro _ _ h3 _
          have hfr := (rule_none_frame ctx tok fuel st false 0 link_factory st2 hr).2
          simp only [push_text]
          rw [hfr]
          exact all_text_text_append _ _ h3
    · cases h
      constructor
      · exact id
      · intro _ _ h3 _
        simp only [push_text]
        exact all_text_text_append _ _ h3

lemma tokenize_one_tokPreserve (ctx : Ctx) : ∀ fuel, TokPreserve (tokenize_one ctx fuel) := by
  intro fuel
  induction fuel with
  | zero =>
    intro st b st' h
    cases h
    exact ⟨id, fun _ _ h3 _ => h3⟩
  | succ fuel ih =>
    exact tok_step_tokPreserve ctx fuel (tokenize_one ctx fuel) ih

/-- C5: (1) whenever the link rule registered with `enable_nested = false`
emits its node, it sets the `SeenLinks` flag in the scan environment.
(2) If, right after a tokenizer step inside the label loop, `SeenLinks` is
set, the loop aborts and reports no close.  (3) Hence — given the cache
invariant, which the empty environment satisfies and every step preserves —
a label accepted with `enable_nested = false` has only text nodes among its
cached children: no committed nested link. -/
theorem c5_seen_links_forbids_nesting :
    (∀ (ctx : Ctx) (tok : MState → Bool × MState) (fuel : Nat) (st : MState) (off : Nat)
       (f : Option (List Char) → Option (List Char) → Node) (n : Nat) (st' : MState),
       rule ctx tok fuel st false off f = (some n, st') → st'.env.seenLinks = true) ∧
    (∀ (ctx : Ctx) (tok : MState → Bool × MState) (fuel : Nat) (st : MState) (level : Nat)
       (ch : Char) (tb : Bool) (st1 : MState),
       headSlice ctx.src st.pos ctx.posMax = some ch →
       ¬(ch = ']' ∧ (if ch = ']' then level - 1 else level) = 0) →
       tok st = (tb, st1) →
       st1.env.seenLinks = true →
       label_loop ctx tok false (fuel + 1) st level = (false, st1)) ∧
    (∀ (ctx : Ctx) (tok : MState → Bool × MState) (fuel : Nat) (st : MState) (start : Nat)
       (e : Nat) (st' : MState) (kids : List Node) (e' : Nat),
       TokPreserve tok → EnvInv st.env →
       parse_link_label ctx tok fuel st start false = (some e, st') →
       cacheGet st'.env start = some (some (kids, e')) →
       all_text kids = true) := by
  refine ⟨rule_sets_seen, ?_, ?_⟩
  · intro ctx tok fuel st level ch tb st1 hch hno htok hseen
    rw [label_loop_succ, hch]
    dsimp only
    rw [if_neg hno, htok]
    dsimp only
    rw [if_pos ⟨rfl, hseen⟩]
  · intro ctx tok fuel st start e st' kids e' ht h1 hl hc
    exact (parse_link_label_inv ctx tok ht fuel st start _ _ hl h1).1 start kids e' hc

def c5_ctx : Ctx := ⟨"[b](c)".data, 6, default_md, none⟩

def c5_st : MState := ⟨0, .node .root [], ⟨false, [], []⟩⟩

def c5_tok : MState → Bool × MState :=
  fun s => (true, ⟨s.pos + 1, s.node, ⟨true, s.env.cache, s.env.labelScans⟩⟩)

def c5_stb : MState := ⟨1, .node .root [], ⟨false, [], []⟩⟩

def c5_lctx : Ctx := ⟨"[b]".data, 3, default_md, none⟩

lemma c5_empty_env_inv : EnvInv (⟨false, [], []⟩ : InlineEnv) :=
  fun _ _ _ h => absurd h (by simp [cacheGet, cache_find])

theorem c5_witness :
    ((rule c5_ctx (tokenize_one c5_ctx 30) 30 c5_st false 0 link_factory).2.env.seenLinks = true) ∧
    (label_loop c5_ctx c5_tok false 6 c5_stb 1 =
      (false, ⟨2, Node.node .root [], ⟨true, [], []⟩⟩)) ∧
    (all_text [Node.node (.text "b".data) []] = true) :=
  ⟨c5_seen_links_forbids_nesting.1 c5_ctx (tokenize_one c5_ctx 30) 30 c5_st 0 link_factory 6
     (rule c5_ctx (tokenize_one c5_ctx 30) 30 c5_st false 0 link_factory).2 rfl,
   c5_seen_links_forbids_nesting.2.1 c5_ctx c5_tok 5 c5_stb 1 'b' true
     ⟨2, Node.node .root [], ⟨true, [], []⟩⟩ rfl (by decide) rfl rfl,
   c5_seen_links_forbids_nesting.2.2 c5_lctx (tokenize_one c5_lctx 20) 20
     ⟨0, .node .root [], ⟨false, [], []⟩⟩ 0 2
     ⟨0, .node .root [], ⟨false, [(0, some ([Node.node (.text "b".data) []], 2))], [0]⟩⟩
     [Node.node (.text "b".data) []] 2
     (tokenize_one_tokPreserve c5_lctx 20) c5_empty_env_inv rfl rfl⟩
